import Mathlib

/-!
Verification of the `someday` calendar tool (src/someday.py).

Python strings are modelled as `List Char`; Python exceptions are modelled
by `Option` results (`none` = the call raises).  Each definition mirrors one
function or method of the source, keeping its name where Lean allows it.
-/

set_option maxHeartbeats 1000000

namespace Someday

/-- Python `str.strip()` (both-ends whitespace strip). -/
def pstrip (s : List Char) : List Char :=
  ((s.dropWhile Char.isWhitespace).reverse.dropWhile Char.isWhitespace).reverse

/-- Python `str.lstrip()`. -/
def plstrip (s : List Char) : List Char :=
  s.dropWhile Char.isWhitespace

/-- Python `str.isdigit()` (ASCII fragment): non-empty and all digits. -/
def pyIsdigit (s : List Char) : Bool :=
  !s.isEmpty && s.all Char.isDigit

/-- Helper for Python `str.split()`: accumulate the current word (reversed). -/
def wordsAux (acc : List Char) : List Char → List (List Char)
  | [] => if acc.isEmpty then [] else [acc.reverse]
  | c :: rs =>
    if c.isWhitespace then
      if acc.isEmpty then wordsAux [] rs else acc.reverse :: wordsAux [] rs
    else wordsAux (c :: acc) rs

/-- Python `str.split()` with no argument: whitespace-separated words. -/
def pywords (s : List Char) : List (List Char) := wordsAux [] s

/-- Python substring test `pat in t`. -/
def containsSub (t pat : List Char) : Bool :=
  match t with
  | [] => pat.isEmpty
  | _ :: rs => pat.isPrefixOf t || containsSub rs pat

/-- Python `t.index(pat)`: index of the leftmost occurrence (meaningful when
`containsSub t pat` holds). -/
def idxOfSub (t pat : List Char) : Nat :=
  match t with
  | [] => 0
  | _ :: rs => if pat.isPrefixOf t then 0 else idxOfSub rs pat + 1

/-- Values returned by `Calendar.parse_expression`: a Python string (`lit`),
a two-element list `[op, v]` (`un`), or a three-element list `[op, l, r]`
(`bin`). -/
inductive PyVal : Type where
  | lit (s : List Char)
  | un (op : List Char) (v : PyVal)
  | bin (op : List Char) (l r : PyVal)
deriving DecidableEq

/-- Python truthiness of a `parse_expression` result: the empty string is
falsy, every other value it can return is truthy. -/
def pyTruthy : PyVal → Bool
  | .lit s => !s.isEmpty
  | _ => true

/-- `Calendar._wellnested` inner loop (`n` is the running paren depth;
the source checks `n < 0` at the top of each iteration). -/
def wnAux : Int → List Char → Bool
  | n, [] => n == 0
  | n, c :: rs =>
    if n < 0 then false
    else wnAux (if c = '(' then n + 1 else if c = ')' then n - 1 else n) rs

/-- `Calendar._wellnested` (src/someday.py:261-273). -/
def wellnested (t : List Char) : Bool := wnAux 0 t

/-- The operator list of `Calendar.parse_expression` (src/someday.py:249),
in source order. -/
def opsList : List (List Char) :=
  [['|'], ['&'], ['!'], ['='], ['!', '='], ['<'], ['>'],
   ['<', '='], ['>', '='], ['-'], ['%']]

/-- The operator loop of `Calendar.parse_expression` (src/someday.py:249-259),
parameterised by the recursive parser `rec`.  For `"!"` the source drops the
first character of the text and returns unconditionally; for a binary operator
it splits at the leftmost occurrence and falls through to the next operator
when either side parses to a falsy value. -/
def tryOps (rec : List Char → Option PyVal) (t : List Char) :
    List (List Char) → Option PyVal
  | [] => if containsSub t [' '] then none else some (.lit t)
  | op :: rest =>
    if containsSub t op then
      if op = ['!'] then
        match rec (t.drop 1) with
        | some v => if pyTruthy v then some (.un op v) else none
        | none => none
      else
        let n := idxOfSub t op
        match rec (t.take n), rec (t.drop (n + 1)) with
        | some v₁, some v₂ =>
          if pyTruthy v₁ && pyTruthy v₂ then some (.bin op v₁ v₂)
          else tryOps rec t rest
        | some _, none => tryOps rec t rest
        | none, _ => tryOps rec t rest
    else tryOps rec t rest

/-- `Calendar.parse_expression` (src/someday.py:239-259).  The Python method
recurses on strictly shorter strings; the recursion is realised with a fuel
argument bounded below by the text length (`parseF_irrel` below shows every
sufficient fuel computes the same value). -/
def parseF : Nat → List Char → Option PyVal
  | 0, _ => none
  | f + 1, text =>
    let t := pstrip text
    if wellnested t then
      if 2 < t.length ∧ t.head? = some '(' ∧ t.getLast? = some ')' then
        parseF f ((t.drop 1).dropLast)
      else tryOps (parseF f) t opsList
    else none

/-- `Calendar.parse_expression` at its natural fuel. -/
def parse_expression (text : List Char) : Option PyVal :=
  parseF (text.length + 1) text

lemma dropWhile_length_le (p : Char → Bool) :
    ∀ l : List Char, (l.dropWhile p).length ≤ l.length
  | [] => le_refl _
  | c :: rs => by
    by_cases h : p c
    · simp only [List.dropWhile, h]
      exact le_trans (dropWhile_length_le p rs) (Nat.le_succ _)
    · simp [List.dropWhile, h]

lemma pstrip_length_le (s : List Char) : (pstrip s).length ≤ s.length := by
  unfold pstrip
  calc ((s.dropWhile Char.isWhitespace).reverse.dropWhile Char.isWhitespace).reverse.length
      = ((s.dropWhile Char.isWhitespace).reverse.dropWhile Char.isWhitespace).length := by
        simp
    _ ≤ (s.dropWhile Char.isWhitespace).reverse.length := dropWhile_length_le _ _
    _ = (s.dropWhile Char.isWhitespace).length := by simp
    _ ≤ s.length := dropWhile_length_le _ _

lemma containsSub_ne_nil {t pat : List Char} (h : containsSub t pat = true)
    (hp : pat ≠ []) : t ≠ [] := by
  intro ht; subst ht
  unfold containsSub at h
  simp [List.isEmpty_iff] at h
  exact hp h

lemma idxOfSub_lt {t pat : List Char} (h : containsSub t pat = true)
    (hp : pat ≠ []) : idxOfSub t pat < t.length := by
  induction t with
  | nil => exact absurd rfl (containsSub_ne_nil h hp)
  | cons c rs ih =>
    unfold idxOfSub
    by_cases hpre : pat.isPrefixOf (c :: rs)
    · simp [hpre]
    · simp only [hpre, if_false]
      unfold containsSub at h
      simp [hpre] at h
      have := ih h
      simpa using Nat.succ_lt_succ this

/-- `tryOps` only looks at `rec` on texts strictly shorter than `t`. -/
lemma tryOps_congr {t : List Char} {r₁ r₂ : List Char → Option PyVal}
    (ops : List (List Char)) (hops : ∀ op ∈ ops, op ≠ [])
    (h : ∀ u : List Char, u.length < t.length → r₁ u = r₂ u) :
    tryOps r₁ t ops = tryOps r₂ t ops := by
  induction ops with
  | nil => rfl
  | cons op rest ih =>
    have hop : op ≠ [] := hops op (by simp)
    have hrest : ∀ o ∈ rest, o ≠ [] := fun o ho => hops o (by simp [ho])
    unfold tryOps
    by_cases hc : containsSub t op
    · have htne : t ≠ [] := containsSub_ne_nil hc hop
      have htpos : 0 < t.length := List.length_pos.mpr htne
      by_cases hbang : op = ['!']
      · subst hbang
        have hdrop : (t.drop 1).length < t.length := by
          simp [List.length_drop]; omega
        simp only [hc, if_true]
        rw [h _ hdrop]
      · have hn : idxOfSub t op < t.length := idxOfSub_lt hc hop
        have htake : (t.take (idxOfSub t op)).length < t.length := by
          simp [List.length_take]; omega
        have hdrop : (t.drop (idxOfSub t op + 1)).length < t.length := by
          simp [List.length_drop]; omega
        simp only [hc, hbang, if_true, if_false, if_neg hbang]
        rw [h _ htake, h _ hdrop]
        cases r₂ (t.take (idxOfSub t op)) with
        | none => exact ih hrest
        | some v₁ =>
          cases r₂ (t.drop (idxOfSub t op + 1)) with
          | none => exact ih hrest
          | some v₂ =>
            by_cases hv : pyTruthy v₁ && pyTruthy v₂
            · simp [hv]
            · simp [hv, ih hrest]
    · simp only [hc, if_false, Bool.false_eq_true]
      exact ih hrest

lemma opsList_ne_nil : ∀ op ∈ opsList, op ≠ [] := by decide

/-- Fuel irrelevance: any fuel strictly above the text length computes the
same parse result. -/
lemma parseF_irrel : ∀ (n : Nat) (t : List Char) (f g : Nat),
    t.length < f → t.length < g → t.length ≤ n → parseF f t = parseF g t := by
  intro n
  induction n with
  | zero =>
    intro t f g hf hg hn
    obtain ⟨f', rfl⟩ : ∃ f', f = f' + 1 := ⟨f - 1, by omega⟩
    obtain ⟨g', rfl⟩ : ∃ g', g = g' + 1 := ⟨g - 1, by omega⟩
    have ht : t = [] := List.length_eq_zero.mp (by omega)
    subst ht
    rfl
  | succ n ih =>
    intro t f g hf hg hn
    obtain ⟨f', rfl⟩ : ∃ f', f = f' + 1 := ⟨f - 1, by omega⟩
    obtain ⟨g', rfl⟩ : ∃ g', g = g' + 1 := ⟨g - 1, by omega⟩
    show parseF (f' + 1) t = parseF (g' + 1) t
    unfold parseF
    have hstrip := pstrip_length_le t
    by_cases hw : wellnested (pstrip t)
    · simp only [hw, if_true]
      by_cases hpar : 2 < (pstrip t).length ∧ (pstrip t).head? = some '(' ∧
          (pstrip t).getLast? = some ')'
      · simp only [hpar, if_true]
        have h2 : 2 < (pstrip t).length := hpar.1
        have hinner : (((pstrip t).drop 1).dropLast).length ≤ (pstrip t).length - 2 := by
          simp only [List.length_dropLast, List.length_drop]
          omega
        exact ih _ f' g' (by omega) (by omega) (by omega)
      · simp only [hpar, if_false]
        exact tryOps_congr opsList opsList_ne_nil
          (fun u hu => ih u f' g' (by omega) (by omega) (by omega))
    · simp [hw]

/-! ## Entry classification (src/someday.py:199-259, 615-678) -/

/-- `Calendar._is_literal` (src/someday.py:228-237): parse fails, the text
splits into exactly 3 whitespace-separated tokens, and none is `"*"`. -/
def is_literal (text : List Char) : Bool :=
  if (parse_expression text).isSome then false
  else
    let tmp := pywords text
    if tmp.length ≠ 3 then false
    else !(tmp.contains ['*'])

/-- The `len(tmp) == 3` analysis inside `Calendar.happens_only_once`
(src/someday.py:218-226).  A Python string of length 3 also has `len == 3`,
and indexing it yields one-character strings; `tmp[2].isdigit()` on a list
raises `AttributeError` (modelled as `none`). -/
def hooCheck : PyVal → Option Bool
  | .lit s =>
    if s.length = 3 then
      if s.take 1 = ['='] then
        if s.get? 1 = some 'j' ∧ (s.get? 2).any Char.isDigit then some true
        else if s.get? 2 = some 'j' ∧ (s.get? 1).any Char.isDigit then some true
        else some false
      else some false
    else some false
  | .bin op a b =>
    if op = ['='] then
      if a = .lit ['j'] then
        match b with
        | .lit s =>
          if pyIsdigit s then some true
          else if s = ['j'] then some false else some false
        | _ => none
      else if b = .lit ['j'] then
        match a with
        | .lit s => some (pyIsdigit s)
        | _ => none
      else some false
    else some false
  | .un _ _ => some false

/-- `Calendar.happens_only_once` on an already-extracted date expression
(src/someday.py:209-226 after the `date is None` guard). -/
def happens_only_once_expr (date : List Char) : Option Bool :=
  if is_literal date then some true
  else
    match parse_expression date with
    | none => some false
    | some tmp => hooCheck tmp

/-- `\w` for the threshold regexes (ASCII fragment of Python `\w`). -/
def isWordChar (c : Char) : Bool := c.isAlphanum || c = '_'

def isWordOpt : Option Char → Bool
  | none => false
  | some c => isWordChar c

/-- Length of the leading whitespace run (`\s*`). -/
def wsCount : List Char → Nat
  | [] => 0
  | c :: rs => if c.isWhitespace then wsCount rs + 1 else 0

/-- Length of the leading digit run (`\d+`, maximal). -/
def digCount : List Char → Nat
  | [] => 0
  | c :: rs => if c.isDigit then digCount rs + 1 else 0

/-- One attempted match of the threshold regex `\b<v>\s*>\s*(\d+)\b`
(JULIAN_THRESHOLD / YEARLY_THRESHOLD, src/someday.py:619-620) at the current
position: `prev` is the character before the position (for the leading
word boundary; `v` is a word character).  Returns the number of characters
consumed. -/
def matchThrAt (v : Char) (prev : Option Char) (s : List Char) : Option Nat :=
  match s with
  | [] => none
  | c :: rs =>
    if c = v ∧ isWordOpt prev = false then
      let a := wsCount rs
      match rs.drop a with
      | c2 :: r2 =>
        if c2 = '>' then
          let b := wsCount r2
          let r3 := r2.drop b
          let d := digCount r3
          if 0 < d ∧ isWordOpt ((r3.drop d).head?) = false then
            some (1 + a + 1 + b + d)
          else none
        else none
      | [] => none
    else none

/-- `re.findall` scan for the threshold regex: count non-overlapping matches
left to right.  `skip` counts characters still inside the previous match;
`prev` is the previous character of the original text. -/
def scanAux (v : Char) : Option Char → List Char → Nat → Nat
  | _, [], _ => 0
  | _, c :: rs, skip + 1 => scanAux v (some c) rs skip
  | prev, c :: rs, 0 =>
    match matchThrAt v prev (c :: rs) with
    | some k => 1 + scanAux v (some c) rs (k - 1)
    | none => scanAux v (some c) rs 0

/-- `len(re.findall(threshold_regex, s))`. -/
def countThr (v : Char) (s : List Char) : Nat := scanAux v none s 0

/-- `re.sub` for the threshold regex, replacement `"%s>%s" % (v, repl)`
(src/someday.py:646). -/
def subAux (v : Char) (repl : List Char) : Option Char → List Char → Nat → List Char
  | _, [], _ => []
  | _, c :: rs, skip + 1 => subAux v repl (some c) rs skip
  | prev, c :: rs, 0 =>
    match matchThrAt v prev (c :: rs) with
    | some k => v :: '>' :: (repl ++ subAux v repl (some c) rs (k - 1))
    | none => c :: subAux v repl (some c) rs 0

/-- The last character of a consumed chunk, falling back to the character
before it (used to track the `\b` context while scanning). -/
def lastOr : List Char → Option Char → Option Char
  | [], prev => prev
  | c :: rest, _ => lastOr rest (some c)

/-- The line rewrite performed by `advance` (src/someday.py:646):
`re.sub(regex, "%s>%s" % (variable_to_replace, repl), line)` over the whole
source line; `repl` abstracts the ordinal produced by the date oracle. -/
def advance_rewrite (v : Char) (repl : List Char) (line : List Char) : List Char :=
  subAux v repl none line 0

/-- `_has_julian_threshold` (src/someday.py:666-667). -/
def has_julian_threshold (date : List Char) : Bool := countThr 'j' date == 1

/-- `_has_yearly_threshold` (src/someday.py:669-670). -/
def has_yearly_threshold (date : List Char) : Bool := countThr 'y' date == 1

/-- `_variable_to_replace` (src/someday.py:672-678). -/
def variable_to_replace (date : List Char) : Option Char :=
  if has_julian_threshold date then some 'j'
  else if has_yearly_threshold date then some 'y'
  else none

/-- `_search_var` applied to a one-character Python string (the only strings
the recursion in `_search_var` can produce from a string argument): length 1
is never 3, and `expr[0] == "&"` then either raises `IndexError` on `expr[1]`
(when the character is `'&'`) or is false. -/
def searchVarChar (c : Char) : Option Bool :=
  if c = '&' then none else some false

/-- `_search_var` on a Python string argument (src/someday.py:658-664 when
`expr` is a string): `len(expr) == 3` indexes characters; `expr[0] == "&"`
recurses into the one-character strings `expr[1]` and `expr[2]`, raising
`IndexError` (`none`) when the string is too short. -/
def searchVarLit (s : List Char) (var : List Char) : Option Bool :=
  if s.length = 3 ∧ s.take 1 = ['>'] ∧ (s.drop 1).take 1 = var ∧
      (s.get? 2).any Char.isDigit then some true
  else
    match s with
    | [] => none
    | c :: rest =>
      if c = '&' then
        match rest with
        | [] => none
        | c1 :: rest1 =>
          match searchVarChar c1 with
          | none => none
          | some true => some true
          | some false =>
            match rest1 with
            | [] => none
            | c2 :: _ => searchVarChar c2
      else some false

/-- `_search_var` (src/someday.py:658-664).  `var` is the one-character
string `"j"` or `"y"`.  `expr[2].isdigit()` on a non-string raises
`AttributeError`; short strings raise `IndexError`; both are `none`. -/
def search_var : PyVal → List Char → Option Bool
  | .lit s, var => searchVarLit s var
  | .un op v, var =>
    if op = ['&'] then
      match search_var v var with
      | none => none
      | some true => some true
      | some false => none
    else some false
  | .bin op l r, var =>
    if op = ['>'] then
      if l = .lit var then
        match r with
        | .lit s => some (pyIsdigit s)
        | _ => none
      else some false
    else if op = ['&'] then
      match search_var l var with
      | none => none
      | some true => some true
      | some false => search_var r var
    else some false

/-- `can_advance` on an already-extracted date expression
(src/someday.py:648-656 after `get_date_expression`). -/
def can_advance_expr (date : List Char) : Option Bool :=
  match variable_to_replace date with
  | none => some false
  | some v =>
    match parse_expression date with
    | none => some false
    | some tmp => search_var tmp [v]

/-! ## Extracting the date expression (src/someday.py:199-202) -/

/-- `\s*,` at the current position: skip the whitespace run, then require a
comma (`,` is not whitespace, so the greedy `\s*` is deterministic here). -/
def wsComma : List Char → Bool
  | [] => false
  | c :: rs => if c = ',' then true else if c.isWhitespace then wsComma rs else false

/-- The lazy match `^(.+?)\s*,` of `get_date_expression`: the group takes the
fewest characters (at least one) such that a whitespace run followed by a
comma starts right after it.  Returns the group. -/
def gdeFind (acc : List Char) : List Char → Option (List Char)
  | [] => none
  | c :: rs => if wsComma rs then some (c :: acc).reverse else gdeFind (c :: acc) rs

/-- `Calendar.get_date_expression` on a source line (src/someday.py:199-202):
`m.group(1).lstrip()` when the regex matches, Python `None` otherwise. -/
def get_date_expression (line : List Char) : Option (List Char) :=
  match gdeFind [] line with
  | none => none
  | some g => some (plstrip g)

/-! ## The URL regex (src/someday.py:701, `can_open_url` 709-710) -/

/-- First character class of the URL regex: `[-a-zA-Z0-9@:%._\+~#=]`. -/
def inUrlC1 (c : Char) : Bool :=
  c.isAlpha || c.isDigit ||
    ['-', '@', ':', '%', '.', '_', '+', '~', '#', '='].contains c

/-- Second character class of the URL regex: `[a-zA-Z0-9()]`. -/
def inUrlC2 (c : Char) : Bool :=
  c.isAlpha || c.isDigit || c = '(' || c = ')'

/-- `\b` between a last consumed character and the next one. -/
def boundaryAfter (last : Char) (next : Option Char) : Bool :=
  isWordChar last != isWordOpt next

/-- After at least one `[a-zA-Z0-9()]` character (`last`), either stop at a
word boundary or (fuel permitting, `{1,6}` total) extend the run; existence
semantics of the regex backtracking. -/
def tryUrlR2 (last : Char) : List Char → Nat → Bool
  | t, 0 => boundaryAfter last t.head?
  | t, fuel + 1 =>
    boundaryAfter last t.head? ||
      (match t with
       | c :: rs => inUrlC2 c && tryUrlR2 c rs fuel
       | [] => false)

/-- `\.[a-zA-Z0-9()]{1,6}\b` at the current position. -/
def urlDotPart : List Char → Bool
  | '.' :: rs =>
    (match rs with
     | c :: rs1 => inUrlC2 c && tryUrlR2 c rs1 5
     | [] => false)
  | _ => false

/-- After at least one class-1 character: either the `\.` part starts here,
or (fuel permitting, `{1,256}` total) consume another class-1 character. -/
def tryUrlR1 : List Char → Nat → Bool
  | t, 0 => urlDotPart t
  | t, fuel + 1 =>
    urlDotPart t ||
      (match t with
       | c :: rs => inUrlC1 c && tryUrlR1 rs fuel
       | [] => false)

/-- `[-a-zA-Z0-9@:%._\+~#=]{1,256}\.[a-zA-Z0-9()]{1,6}\b` at the position. -/
def urlHostPart : List Char → Bool
  | c :: rs => inUrlC1 c && tryUrlR1 rs 255
  | [] => false

/-- `(?:www\.)?` then the host part. -/
def urlAfterScheme (t : List Char) : Bool :=
  (if (['w', 'w', 'w', '.']).isPrefixOf t then urlHostPart (t.drop 4) else false)
    || urlHostPart t

/-- `https?:\/\/` then the rest, at the current position; the trailing
`(?:[-a-zA-Z0-9()@:%_\+.~#?&//=]*)` always matches (possibly empty) and does
not affect match existence. -/
def urlAt (t : List Char) : Bool :=
  if (['h', 't', 't', 'p']).isPrefixOf t then
    (if (['s', ':', '/', '/']).isPrefixOf (t.drop 4) then
      urlAfterScheme (t.drop 8) else false)
    || (if ([':', '/', '/']).isPrefixOf (t.drop 4) then
      urlAfterScheme (t.drop 7) else false)
  else false

/-- `re.search(URL, text) is not None` (src/someday.py:710). -/
def searchUrl : List Char → Bool
  | [] => false
  | c :: rs => urlAt (c :: rs) || searchUrl rs

/-! ## The calendar document and its transactions (src/someday.py:88-310)

The state consists of the fields of `Calendar` that the transactional
operations read or write.  `_update_view` (src/someday.py:129-154) writes the
numbered proxy file, runs the external `when` oracle and parses its output;
its whole effect is abstracted as an `Oracle` function from the current
`_calendar_lines` to `none` (the subprocess fails or its output starts with
`"*"`, i.e. `InternalException`) or `some (shown_items, line_numbers)`. -/

structure Calendar where
  calendar_lines : List (List Char)
  line_numbers : List Nat
  shown_items : List (List Char)
  modified : Bool
deriving DecidableEq

/-- The abstracted effect of `Calendar._update_view`. -/
def Oracle : Type := List (List Char) → Option (List (List Char) × List Nat)

/-- `Calendar._update_view` (src/someday.py:129-154): on oracle success the
projection fields are overwritten; on failure `InternalException` is raised
before any field is assigned. -/
def update_view (oracle : Oracle) (c : Calendar) : Option Calendar :=
  match oracle c.calendar_lines with
  | none => none
  | some (items, nums) =>
    some { c with shown_items := items, line_numbers := nums }

/-- `Calendar.get_source_line` (src/someday.py:169-171); `none` is an
uncaught `IndexError`. -/
def get_source_line (c : Calendar) (index : Nat) : Option (List Char) :=
  match c.line_numbers.get? index with
  | none => none
  | some ln => c.calendar_lines.get? ln

/-- `Calendar.delete_source_line` (src/someday.py:290-300): remove the line,
re-project; on failure re-insert the old value at the same position and
report `False`. -/
def delete_source_line (oracle : Oracle) (c : Calendar) (index : Nat) :
    Option (Calendar × Bool) :=
  match c.line_numbers.get? index with
  | none => none
  | some ln =>
    match c.calendar_lines.get? ln with
    | none => none
    | some old_value =>
      let c1 := { c with calendar_lines := c.calendar_lines.eraseIdx ln }
      match update_view oracle c1 with
      | some c2 => some ({ c2 with modified := true }, true)
      | none =>
        some ({ c1 with calendar_lines := c1.calendar_lines.insertIdx ln old_value },
          false)

/-- `Calendar.update_source_line` (src/someday.py:275-288): strip the
candidate, delegate to delete when blank, otherwise replace the line,
re-project; on failure restore the exact prior text and report `False`. -/
def update_source_line (oracle : Oracle) (c : Calendar) (index : Nat)
    (what : List Char) : Option (Calendar × Bool) :=
  let w := pstrip what
  if w = [] then delete_source_line oracle c index
  else
    match c.line_numbers.get? index with
    | none => none
    | some ln =>
      match c.calendar_lines.get? ln with
      | none => none
      | some old_value =>
        let c1 := { c with calendar_lines := c.calendar_lines.set ln w }
        match update_view oracle c1 with
        | some c2 => some ({ c2 with modified := true }, true)
        | none =>
          some ({ c1 with calendar_lines := c1.calendar_lines.set ln old_value },
            false)

/-- `Calendar.add_source_line` (src/someday.py:302-310): append, re-project;
on failure delete the appended last line. -/
def add_source_line (oracle : Oracle) (c : Calendar) (what : List Char) :
    Calendar × Bool :=
  let c1 := { c with calendar_lines := c.calendar_lines ++ [what] }
  match update_view oracle c1 with
  | some c2 => ({ c2 with modified := true }, true)
  | none => ({ c1 with calendar_lines := c1.calendar_lines.dropLast }, false)

/-! ## Index-level classifier predicates (src/someday.py:585-613, 648-656,
709-710).  `none` models an uncaught Python exception. -/

/-- `Calendar.happens_only_once` (src/someday.py:209-226): a missing date
expression (no comma) is guarded and yields `False`. -/
def happens_only_once (c : Calendar) (index : Nat) : Option Bool :=
  match get_source_line c index with
  | none => none
  | some line =>
    match get_date_expression line with
    | none => some false
    | some date => happens_only_once_expr date

/-- `can_delete` (src/someday.py:588-589). -/
def can_delete (c : Calendar) (index : Nat) : Option Bool :=
  happens_only_once c index

/-- `can_comment` (src/someday.py:594-595). -/
def can_comment (c : Calendar) (index : Nat) : Option Bool :=
  happens_only_once c index

/-- `can_reschedule` (src/someday.py:612-613). -/
def can_reschedule (c : Calendar) (index : Nat) : Option Bool :=
  happens_only_once c index

/-- `can_advance` (src/someday.py:648-656): a missing date expression is NOT
guarded — `_variable_to_replace(None)` calls `re.findall` on `None`, raising
`TypeError` (`none`). -/
def can_advance (c : Calendar) (index : Nat) : Option Bool :=
  match get_source_line c index with
  | none => none
  | some line =>
    match get_date_expression line with
    | none => none
    | some date => can_advance_expr date

/-- `can_open_url` (src/someday.py:709-710), over the rendered item text. -/
def can_open_url (c : Calendar) (index : Nat) : Option Bool :=
  match c.shown_items.get? index with
  | none => none
  | some item => some (searchUrl item)

/-! ## The menu rebuild (src/someday.py:865-883) -/

inductive Action : Type where
  | edit | delete | reschedule | comment | advance | browseUrl
  | duplicate | new | view | monthly
deriving DecidableEq

/-- `recreate_menu` (src/someday.py:865-883), recording the sequence of
actions added; `sel` is `item_list.selected_item()`.  The gating predicates
are evaluated in source order inside the `if calendar.get_items():` branch,
and an exception in any of them propagates. -/
def recreate_menu (c : Calendar) (sel : Nat) : Option (List Action) :=
  if c.shown_items ≠ [] then
    match can_delete c sel with
    | none => none
    | some d =>
      match can_reschedule c sel with
      | none => none
      | some r =>
        match can_comment c sel with
        | none => none
        | some co =>
          match can_advance c sel with
          | none => none
          | some a =>
            match can_open_url c sel with
            | none => none
            | some u =>
              some ([Action.edit]
                ++ (if d then [Action.delete] else [])
                ++ (if r then [Action.reschedule] else [])
                ++ (if co then [Action.comment] else [])
                ++ (if a then [Action.advance] else [])
                ++ (if u then [Action.browseUrl] else [])
                ++ [Action.duplicate, Action.new, Action.view, Action.monthly])
  else some [Action.new, Action.view, Action.monthly]

/-! ## The item-list cursor (src/someday.py:314-369).  Python integers are
modelled as `Int`; the fields start at 0 and the guarded decrements keep
them non-negative. -/

structure ItemList where
  items : List (List Char)
  first_item : Int
  selected_row : Int
deriving DecidableEq

/-- `List.up` (src/someday.py:346-352). -/
def ItemList.up (s : ItemList) : ItemList :=
  if s.items = [] then s
  else if 0 < s.selected_row then { s with selected_row := s.selected_row - 1 }
  else if 0 < s.first_item then { s with first_item := s.first_item - 1 }
  else s

/-- `List.top` (src/someday.py:342-344). -/
def ItemList.top (s : ItemList) : ItemList :=
  { s with selected_row := 0, first_item := 0 }

/-- The `while` loop of `List._adjust_selected_item` (src/someday.py:337-338).
The loop guard repeats the (loop-invariant) nonemptiness of `items` so that
the definition is total; `up` never changes `items`. -/
def ItemList.adjustLoop (s : ItemList) : ItemList :=
  if h : s.items ≠ [] ∧ (s.items.length : Int) ≤ s.first_item + s.selected_row then
    ItemList.adjustLoop s.up
  else s
termination_by (s.first_item + s.selected_row).toNat
decreasing_by
  have hne := h.1
  have hge := h.2
  have hlen : 1 ≤ (s.items.length : Int) := by
    exact_mod_cast List.length_pos.mpr hne
  have hsum : 1 ≤ s.first_item + s.selected_row := le_trans hlen hge
  unfold ItemList.up
  split_ifs with h1 h2 h3
  · exact absurd h1 hne
  · simp only
    omega
  · simp only
    omega
  · omega

/-- `List._adjust_selected_item` (src/someday.py:335-340). -/
def ItemList.adjust (s : ItemList) : ItemList :=
  if s.items ≠ [] then s.adjustLoop else s.top

/-! ## Sample values used by witnesses -/

/-- An oracle that always fails (`when` exits non-zero or prints `*...`). -/
def oracleFail : Oracle := fun _ => none

/-- An oracle that always succeeds with a one-item projection of line 0. -/
def oracleOne : Oracle := fun _ => some ([("it").toList], [0])

/-- A one-line document whose single line is shown. -/
def sampleCal : Calendar :=
  ⟨[("j>5 , x").toList], [0], [("it").toList], false⟩

/-- A document whose single line has no comma. -/
def noCommaCal : Calendar :=
  ⟨[("j bla").toList], [0], [("j bla").toList], false⟩

/-- A document whose single line is a plain literal-date entry. -/
def plainCal : Calendar :=
  ⟨[("jan 1 2031 , pay rent").toList], [0], [("pay rent").toList], false⟩

/-- A document whose single line has an unbalanced-parenthesis date
expression (spec §8's `"(j>5 , text"`). -/
def unbalancedCal : Calendar :=
  ⟨[("(j>5 , text").toList], [0], [("text").toList], false⟩

/-- The menu produced for `plainCal`'s single literal-date entry. -/
def plainMenu : List Action :=
  [Action.edit, Action.delete, Action.reschedule, Action.comment,
   Action.duplicate, Action.new, Action.view, Action.monthly]

/-! ## General list lemmas used by the transaction proofs -/

lemma list_set_get_self {α : Type _} :
    ∀ (l : List α) (n : Nat) (a : α), l.get? n = some a → l.set n a = l
  | [], _, _, h => by simp at h
  | x :: xs, 0, a, h => by simp at h; simp [h]
  | x :: xs, n + 1, a, h => by
    simp only [List.get?] at h
    simp [List.set, list_set_get_self xs n a h]

lemma list_insert_erase {α : Type _} :
    ∀ (l : List α) (n : Nat) (a : α),
      l.get? n = some a → (l.eraseIdx n).insertIdx n a = l
  | [], _, _, h => by simp at h
  | x :: xs, 0, a, h => by
    simp at h
    simp [h, List.eraseIdx, List.insertIdx_zero]
  | x :: xs, n + 1, a, h => by
    simp only [List.get?] at h
    simp [List.eraseIdx, List.insertIdx_succ_cons, list_insert_erase xs n a h]

lemma list_append_erase {α : Type _} (l : List α) (x : α) :
    (l ++ [x]).eraseIdx l.length = l := by
  induction l with
  | nil => simp [List.eraseIdx]
  | cons c cs ih => simp [List.eraseIdx, ih]

lemma list_append_get_last {α : Type _} (l : List α) (x : α) :
    (l ++ [x]).get? l.length = some x := by
  induction l with
  | nil => rfl
  | cons c cs ih => simpa using ih

/-! ## Claim theorems -/

/-- C1: for every document state, every valid displayed-item index and every
candidate text, if re-projection through the oracle fails (the oracle call
errors or its output signals a malformed expression, i.e. the abstracted
`_update_view` raises `InternalException`), then `update_source_line` and
`delete_source_line` return failure (`False`) and leave the document state —
in particular the line sequence, byte for byte, and the `modified` flag —
exactly as before the call. -/
theorem failed_reprojection_rolls_back (oracle : Oracle) (c : Calendar)
    (index : Nat) (what : List Char) (ln : Nat) (old_value : List Char)
    (hln : c.line_numbers.get? index = some ln)
    (hold : c.calendar_lines.get? ln = some old_value) :
    (oracle (c.calendar_lines.eraseIdx ln) = none →
      delete_source_line oracle c index = some (c, false))
    ∧ (pstrip what ≠ [] → oracle (c.calendar_lines.set ln (pstrip what)) = none →
      update_source_line oracle c index what = some (c, false))
    ∧ (pstrip what = [] → oracle (c.calendar_lines.eraseIdx ln) = none →
      update_source_line oracle c index what = some (c, false)) := by
  have hdel : oracle (c.calendar_lines.eraseIdx ln) = none →
      delete_source_line oracle c index = some (c, false) := by
    intro ho
    unfold delete_source_line update_view
    simp only [hln, hold, ho]
    rw [list_insert_erase _ _ _ hold]
  refine ⟨hdel, ?_, ?_⟩
  · intro hw ho
    unfold update_source_line update_view
    simp only [if_neg hw, hln, hold, ho]
    rw [List.set_set, list_set_get_self _ _ _ hold]
  · intro hw ho
    unfold update_source_line
    simp only [hw, ite_true]
    exact hdel ho

/-- Witness for C1 at a concrete document, index, candidate and failing
oracle. -/
theorem failed_reprojection_rolls_back_witness :
    delete_source_line oracleFail sampleCal 0 = some (sampleCal, false)
    ∧ update_source_line oracleFail sampleCal 0 (("  y>9 , z ").toList)
        = some (sampleCal, false) := by
  have h := failed_reprojection_rolls_back oracleFail sampleCal 0
    (("  y>9 , z ").toList) 0 (("j>5 , x").toList) (by decide) (by decide)
  exact ⟨h.1 rfl, h.2.1 (by decide) rfl⟩

/-- C9: `add_source_line x` followed immediately by `delete_source_line` of
the displayed index that refers to the appended entry (the line numbered
with the old document length), when both operations validate successfully,
restores the document's exact pre-append line sequence. -/
theorem append_then_delete_roundtrip (oracle : Oracle) (c c₁ c₂ : Calendar)
    (x : List Char) (i : Nat)
    (h1 : add_source_line oracle c x = (c₁, true))
    (hidx : c₁.line_numbers.get? i = some c.calendar_lines.length)
    (h2 : delete_source_line oracle c₁ i = some (c₂, true)) :
    c₂.calendar_lines = c.calendar_lines := by
  have hlines : c₁.calendar_lines = c.calendar_lines ++ [x] := by
    unfold add_source_line update_view at h1
    cases ho : oracle (c.calendar_lines ++ [x]) with
    | none => simp [ho] at h1
    | some pr =>
      simp only [ho] at h1
      injection h1 with ha hb
      rw [← ha]
  unfold delete_source_line update_view at h2
  rw [hidx, hlines] at h2
  simp only [list_append_get_last, list_append_erase] at h2
  cases ho : oracle c.calendar_lines with
  | none => rw [ho] at h2; simp at h2
  | some pr =>
    rw [ho] at h2
    simp only [Option.some.injEq, Prod.mk.injEq] at h2
    rw [← h2.1]

/-- Witness for C9: appending to the empty document and deleting the single
resulting item restores the empty line sequence. -/
theorem append_then_delete_roundtrip_witness :
    (add_source_line oracleOne ⟨[], [], [], false⟩ (("j>5 , x").toList)).2 = true
    ∧ ((add_source_line oracleOne ⟨[], [], [], false⟩ (("j>5 , x").toList)).1.calendar_lines
        ≠ [])
    ∧ ∀ c₂, delete_source_line oracleOne
        (add_source_line oracleOne ⟨[], [], [], false⟩ (("j>5 , x").toList)).1 0
        = some (c₂, true) → c₂.calendar_lines = [] := by
  refine ⟨by decide, by decide, fun c₂ h2 => ?_⟩
  exact append_then_delete_roundtrip oracleOne ⟨[], [], [], false⟩ _ c₂
    (("j>5 , x").toList) 0 (by decide) (by decide) h2

/-- C10: a successful non-blank `update_source_line` stores the
whitespace-stripped candidate — the committed line at the updated position
equals `pstrip what`, so it never carries surrounding whitespace, and a
candidate differing from the old line only in surrounding whitespace still
replaces it with the stripped text. -/
theorem update_commits_stripped_text (oracle : Oracle) (c c' : Calendar)
    (index ln : Nat) (what : List Char)
    (hw : pstrip what ≠ [])
    (hln : c.line_numbers.get? index = some ln)
    (h : update_source_line oracle c index what = some (c', true)) :
    c'.calendar_lines.get? ln = some (pstrip what) := by
  unfold update_source_line update_view at h
  simp only [if_neg hw, hln] at h
  cases hold : c.calendar_lines.get? ln with
  | none => simp only [hold] at h; simp at h
  | some old =>
    simp only [hold] at h
    cases ho : oracle (c.calendar_lines.set ln (pstrip what)) with
    | none =>
      simp only [ho] at h
      simp at h
    | some pr =>
      simp only [ho, Option.some.injEq, Prod.mk.injEq] at h
      rw [← h.1]
      have hlt : ln < c.calendar_lines.length := by
        obtain ⟨hlt, -⟩ := List.get?_eq_some.mp hold
        exact hlt
      show (c.calendar_lines.set ln (pstrip what)).get? ln = some (pstrip what)
      rw [List.get?_set_eq]
      simp [hlt]

/-- Witness for C10: a candidate differing from the stored line only by
surrounding whitespace is committed in stripped form. -/
theorem update_commits_stripped_text_witness :
    pstrip (("  j>5 , x ").toList) ≠ []
    ∧ ∀ c', update_source_line oracleOne sampleCal 0 (("  j>5 , x ").toList)
        = some (c', true) → c'.calendar_lines.get? 0 = some (("j>5 , x").toList) := by
  refine ⟨by decide, fun c' h => ?_⟩
  exact update_commits_stripped_text oracleOne sampleCal c' 0 0
    (("  j>5 , x ").toList) (by decide) (by decide) h

/-! ## The cursor clamp (C8) -/

lemma up_items (s : ItemList) : s.up.items = s.items := by
  unfold ItemList.up
  split_ifs <;> rfl

lemma up_first_item_nonneg (s : ItemList) (hf : 0 ≤ s.first_item) :
    0 ≤ s.up.first_item := by
  unfold ItemList.up
  split_ifs <;> first | exact hf | (show 0 ≤ s.first_item - 1; omega)

lemma up_selected_row_nonneg (s : ItemList) (hf : 0 ≤ s.first_item)
    (hr : 0 ≤ s.selected_row) : 0 ≤ s.up.selected_row := by
  unfold ItemList.up
  split_ifs with h1 h2 <;> first | exact hr | (show 0 ≤ s.selected_row - 1; omega)

lemma adjustLoop_spec (s : ItemList) (hf : 0 ≤ s.first_item)
    (hr : 0 ≤ s.selected_row) :
    s.adjustLoop.items = s.items
    ∧ 0 ≤ s.adjustLoop.first_item ∧ 0 ≤ s.adjustLoop.selected_row
    ∧ (s.items ≠ [] →
       s.adjustLoop.first_item + s.adjustLoop.selected_row < (s.items.length : Int)) := by
  induction s using ItemList.adjustLoop.induct with
  | case1 s h ih =>
    rw [ItemList.adjustLoop, dif_pos h]
    have hf' := up_first_item_nonneg s hf
    have hr' := up_selected_row_nonneg s hf hr
    have ⟨ih1, ih2, ih3, ih4⟩ := ih hf' hr'
    rw [up_items] at ih1 ih4
    exact ⟨ih1, ih2, ih3, fun hne => ih4 hne⟩
  | case2 s h =>
    rw [ItemList.adjustLoop, dif_neg h]
    push_neg at h
    refine ⟨rfl, hf, hr, fun hne => ?_⟩
    exact h hne

/-- C8: after the auto-clamp (`_adjust_selected_item`) runs from any state
with non-negative cursor fields, the invariant
`0 ≤ firstVisible + selectedRow ≤ itemCount - 1` holds whenever the item
list is non-empty, and `firstVisible = selectedRow = 0` when it is empty;
the clamp loop terminates (it is a total function). -/
theorem cursor_clamp_invariant (s : ItemList) (hf : 0 ≤ s.first_item)
    (hr : 0 ≤ s.selected_row) :
    s.adjust.items = s.items
    ∧ 0 ≤ s.adjust.first_item + s.adjust.selected_row
    ∧ (s.items ≠ [] →
       s.adjust.first_item + s.adjust.selected_row ≤ (s.items.length : Int) - 1)
    ∧ (s.items = [] → s.adjust.first_item = 0 ∧ s.adjust.selected_row = 0) := by
  unfold ItemList.adjust
  by_cases h : s.items ≠ []
  · rw [if_pos h]
    have ⟨h1, h2, h3, h4⟩ := adjustLoop_spec s hf hr
    have := h4 h
    exact ⟨h1, by omega, fun _ => by omega, fun he => absurd he h⟩
  · rw [if_neg h]
    push_neg at h
    exact ⟨rfl, by simp [ItemList.top], fun hne => absurd h hne,
      fun _ => ⟨rfl, rfl⟩⟩

/-- Witness for C8 at a concrete one-item list with cursor `(0, 0)`. -/
theorem cursor_clamp_invariant_witness :
    (0 : Int) ≤ (ItemList.mk [("a").toList] 0 0).first_item
    ∧ (0 : Int) ≤ (ItemList.mk [("a").toList] 0 0).selected_row
    ∧ ((ItemList.mk [("a").toList] 0 0).adjust.items = [("a").toList]
       ∧ 0 ≤ (ItemList.mk [("a").toList] 0 0).adjust.first_item
           + (ItemList.mk [("a").toList] 0 0).adjust.selected_row
       ∧ ([("a").toList] ≠ ([] : List (List Char)) →
          (ItemList.mk [("a").toList] 0 0).adjust.first_item
            + (ItemList.mk [("a").toList] 0 0).adjust.selected_row
            ≤ (([("a").toList] : List (List Char)).length : Int) - 1)
       ∧ ([("a").toList] = ([] : List (List Char)) →
          (ItemList.mk [("a").toList] 0 0).adjust.first_item = 0
          ∧ (ItemList.mk [("a").toList] 0 0).adjust.selected_row = 0)) :=
  ⟨by decide, by decide,
    cursor_clamp_invariant (ItemList.mk [("a").toList] 0 0) (by decide) (by decide)⟩

/-! ## Parser and classifier claims (C5, C4, C2) -/

/-- C5: `parse("j = 5")` yields `Binary("=", "j", "5")`, `parse("5 = j")`
yields `Binary("=", "5", "j")`, and `happens_only_once` is true for both
expressions (an `"="` node with the literal `"j"` on one side and an
all-digits literal on the other). -/
theorem equality_dates_happen_only_once :
    parse_expression (("j = 5").toList)
      = some (.bin ['='] (.lit ['j']) (.lit ['5']))
    ∧ parse_expression (("5 = j").toList)
      = some (.bin ['='] (.lit ['5']) (.lit ['j']))
    ∧ happens_only_once_expr (("j = 5").toList) = some true
    ∧ happens_only_once_expr (("5 = j").toList) = some true := by
  exact ⟨by decide, by decide, by decide, by decide⟩

/-- C4: `can_advance` holds for `"j>5 & y>2020"` (exactly one delimited
`j>N` occurrence, present as a conjunct) with `variable_to_replace = "j"`,
and fails for `"j>5 & j>3"` because the raw text contains two `j>N`
occurrences rather than exactly one. -/
theorem advanceable_gating :
    can_advance_expr (("j>5 & y>2020").toList) = some true
    ∧ variable_to_replace (("j>5 & y>2020").toList) = some 'j'
    ∧ can_advance_expr (("j>5 & j>3").toList) = some false
    ∧ countThr 'j' (("j>5 & j>3").toList) = 2
    ∧ variable_to_replace (("j>5 & j>3").toList) = none := by
  exact ⟨by decide, by decide, by decide, by decide, by decide⟩

/-- C2 counterexample: on `"(a)&(b)"` the claim predicts that no stripping
happens and the operator scan yields the `"&"` split
`Binary("&", parse("(a)"), parse("(b)")) = Binary("&", "a", "b")`; the code
instead strips the outer characters unconditionally and fails. -/
theorem paren_strip_counterexample :
    parse_expression (("(a)&(b)").toList) = none
    ∧ parse_expression (("(a)&(b)").toList)
        ≠ some (.bin ['&'] (.lit ['a']) (.lit ['b'])) := by
  exact ⟨by decide, by decide⟩

/-- C2 (amended): `parse_expression` strips the outer character pair
whenever the trimmed text has length > 2, begins with `'('` and ends with
`')'` — without checking that the two parentheses match — and recurses on
the stripped text.  On `"(a)&(b)"` the stripped text `"a)&(b"` fails the
well-nestedness check, so parsing returns failure rather than proceeding to
the operator scan. -/
theorem paren_strip_unconditional :
    (∀ t : List Char, wellnested (pstrip t) = true → 2 < (pstrip t).length →
      (pstrip t).head? = some '(' → (pstrip t).getLast? = some ')' →
      parse_expression t = parse_expression (((pstrip t).drop 1).dropLast))
    ∧ parse_expression (("(a)&(b)").toList)
        = parse_expression (("a)&(b").toList)
    ∧ parse_expression (("a)&(b").toList) = none := by
  refine ⟨?_, by decide, by decide⟩
  intro t hw hlen hh hl
  show parseF (t.length + 1) t = parse_expression (((pstrip t).drop 1).dropLast)
  rw [parseF]
  simp only [hw, if_true, if_pos (⟨hlen, hh, hl⟩ :
    2 < (pstrip t).length ∧ (pstrip t).head? = some '(' ∧
      (pstrip t).getLast? = some ')')]
  have hin : (((pstrip t).drop 1).dropLast).length ≤ (pstrip t).length - 2 := by
    simp only [List.length_dropLast, List.length_drop]
    omega
  have hst := pstrip_length_le t
  exact parseF_irrel (((pstrip t).drop 1).dropLast).length _ _ _
    (by omega) (by omega) (le_refl _)

/-- Witness for the universally quantified part of the amended C2. -/
theorem paren_strip_unconditional_witness :
    parse_expression (("(ab)").toList)
      = parse_expression (((pstrip (("(ab)").toList)).drop 1).dropLast) :=
  paren_strip_unconditional.1 (("(ab)").toList)
    (by decide) (by decide) (by decide) (by decide)

/-! ## The Advance rewrite frame property (C3) -/

lemma matchThrAt_pos {v : Char} {prev : Option Char} {s : List Char} {k : Nat}
    (h : matchThrAt v prev s = some k) : 0 < k := by
  unfold matchThrAt at h
  cases s with
  | nil => simp at h
  | cons c rs =>
    simp only at h
    split_ifs at h with h1
    cases hd : rs.drop (wsCount rs) with
    | nil => rw [hd] at h; simp at h
    | cons c2 r2 =>
      rw [hd] at h
      simp only at h
      split_ifs at h with h2 h3
      have hk := Option.some.inj h
      omega

lemma scanAux_cons_match {v : Char} {prev : Option Char} {c : Char}
    {rs : List Char} {k : Nat} (h : matchThrAt v prev (c :: rs) = some k) :
    scanAux v prev (c :: rs) 0 = 1 + scanAux v (some c) rs (k - 1) := by
  simp [scanAux, h]

lemma scanAux_cons_none {v : Char} {prev : Option Char} {c : Char}
    {rs : List Char} (h : matchThrAt v prev (c :: rs) = none) :
    scanAux v prev (c :: rs) 0 = scanAux v (some c) rs 0 := by
  simp [scanAux, h]

lemma subAux_cons_match {v : Char} {repl : List Char} {prev : Option Char}
    {c : Char} {rs : List Char} {k : Nat}
    (h : matchThrAt v prev (c :: rs) = some k) :
    subAux v repl prev (c :: rs) 0
      = v :: '>' :: (repl ++ subAux v repl (some c) rs (k - 1)) := by
  simp [subAux, h]

lemma subAux_cons_none {v : Char} {repl : List Char} {prev : Option Char}
    {c : Char} {rs : List Char} (h : matchThrAt v prev (c :: rs) = none) :
    subAux v repl prev (c :: rs) 0 = c :: subAux v repl (some c) rs 0 := by
  simp [subAux, h]

/-- No match anywhere: the substitution copies the text unchanged. -/
lemma subAux_no_match (v : Char) (repl : List Char) :
    ∀ (q : List Char) (prev : Option Char),
      scanAux v prev q 0 = 0 → subAux v repl prev q 0 = q
  | [], _, _ => rfl
  | c :: rs, prev, h => by
    cases hm : matchThrAt v prev (c :: rs) with
    | some k => rw [scanAux_cons_match hm] at h; omega
    | none =>
      rw [scanAux_cons_none hm] at h
      rw [subAux_cons_none hm, subAux_no_match v repl rs (some c) h]

/-- Skipping over the remainder of a match emits nothing. -/
lemma subAux_skip (v : Char) (repl : List Char) :
    ∀ (m : List Char) (prev : Option Char) (q : List Char),
      subAux v repl prev (m ++ q) m.length = subAux v repl (lastOr m prev) q 0
  | [], _, _ => rfl
  | c :: m', prev, q => by
    show subAux v repl (some c) (m' ++ q) m'.length
      = subAux v repl (lastOr m' (some c)) q 0
    exact subAux_skip v repl m' (some c) q

/-- Copying a region in which no match starts. -/
lemma subAux_copy (v : Char) (repl : List Char) :
    ∀ (p : List Char) (prev : Option Char) (rest : List Char),
      (∀ x y, p = x ++ y → y ≠ [] →
        matchThrAt v (lastOr x prev) (y ++ rest) = none) →
      subAux v repl prev (p ++ rest) 0
        = p ++ subAux v repl (lastOr p prev) rest 0
  | [], _, _, _ => rfl
  | c :: p', prev, rest, hp => by
    have h0 : matchThrAt v prev (c :: (p' ++ rest)) = none := by
      have := hp [] (c :: p') rfl (by simp)
      simpa [lastOr] using this
    rw [List.cons_append, subAux_cons_none h0]
    have hp' : ∀ x y, p' = x ++ y → y ≠ [] →
        matchThrAt v (lastOr x (some c)) (y ++ rest) = none := by
      intro x y hxy hy
      have := hp (c :: x) y (by rw [hxy, List.cons_append]) hy
      simpa using this
    rw [subAux_copy v repl p' (some c) rest hp']
    rfl

/-- C3 counterexample: the line `"j>5 , see j>10"` satisfies the Advance
gating (`variable_to_replace` is defined and `can_advance` holds for its
date expression `"j>5"`), yet rewriting with the new ordinal `60000` also
rewrites the `j>10` inside the event text after the comma: the event text is
not left byte-identical. -/
theorem advance_rewrites_event_text :
    get_date_expression (("j>5 , see j>10").toList) = some (("j>5").toList)
    ∧ variable_to_replace (("j>5").toList) = some 'j'
    ∧ can_advance_expr (("j>5").toList) = some true
    ∧ advance_rewrite 'j' (("60000").toList) (("j>5 , see j>10").toList)
        = ("j>60000 , see j>60000").toList
    ∧ ("j>60000 , see j>60000").toList ≠ ("j>60000 , see j>10").toList := by
  exact ⟨by decide, by decide, by decide, by decide, by decide⟩

/-- C3 (amended): the Advance rewrite applies `re.sub` to the whole source
line, so every delimited threshold occurrence in the line is rewritten to
the new value, including occurrences inside the event text after the comma.
Bytes outside matched spans are unchanged: if the line decomposes as
`p ++ m ++ q` where the threshold pattern matches exactly `m` at that
position and matches nowhere inside `p` or after it in `q`, the rewritten
line is `p ++ (v>repl) ++ q`.  In particular, when the single gated
occurrence lies in the date expression and the event text contains none,
only that sub-clause changes. -/
theorem advance_rewrite_frame (v : Char) (repl p m q : List Char)
    (hp : ∀ x y, p = x ++ y → y ≠ [] →
      matchThrAt v (lastOr x none) (y ++ (m ++ q)) = none)
    (hm : matchThrAt v (lastOr p none) (m ++ q) = some m.length)
    (hq : scanAux v (lastOr m (lastOr p none)) q 0 = 0) :
    advance_rewrite v repl (p ++ m ++ q) = p ++ (v :: '>' :: repl) ++ q := by
  have hmpos : 0 < m.length := matchThrAt_pos hm
  obtain ⟨cm, m', rfl⟩ : ∃ cm m', m = cm :: m' := by
    cases m with
    | nil => simp at hmpos
    | cons a b => exact ⟨a, b, rfl⟩
  unfold advance_rewrite
  rw [List.append_assoc]
  rw [subAux_copy v repl p none ((cm :: m') ++ q) hp]
  rw [List.cons_append] at hm ⊢
  rw [subAux_cons_match hm]
  have hk : (cm :: m').length - 1 = m'.length := by simp
  rw [hk, subAux_skip v repl m' (some cm) q]
  have hlast : lastOr m' (some cm) = lastOr (cm :: m') (lastOr p none) := rfl
  rw [hlast, subAux_no_match v repl q _ hq]
  simp

/-- Witness for the amended C3 at the spec's own example: date expression
`"j>5 & y>2020"`, event `"pay rent"`, new ordinal `60000`. -/
theorem advance_rewrite_frame_witness :
    advance_rewrite 'j' (("60000").toList)
        (([] : List Char) ++ ("j>5").toList ++ (" & y>2020 , pay rent").toList)
      = ([] : List Char) ++ ('j' :: '>' :: ("60000").toList)
          ++ (" & y>2020 , pay rent").toList := by
  have h := advance_rewrite_frame 'j' (("60000").toList) []
    (("j>5").toList) ((" & y>2020 , pay rent").toList)
    (by
      intro x y hxy hy
      exact absurd (List.append_eq_nil.mp hxy.symm).2 hy)
    (by decide) (by decide)
  exact h

/-! ## Classifier totality (C6) -/

/-- C6 counterexample: on a source line with no comma the extracted date
expression is Python `None`; `can_advance` passes it unguarded to
`_variable_to_replace`, where `re.findall` on `None` raises `TypeError` —
the predicate does not return a boolean. -/
theorem classifier_throws_on_missing_date :
    can_advance noCommaCal 0 = none
    ∧ (∀ b : Bool, can_advance noCommaCal 0 ≠ some b) := by
  exact ⟨by decide, by decide⟩

/-- C6 (amended): `happens_only_once` (hence `can_delete`, `can_comment`,
`can_reschedule`) returns a boolean on a line with no extractable date
expression (the `None` guard yields `False`), and when the date expression
fails to parse it returns the literal-date test result (`False` unless the
expression is a 3-token literal date) while `can_advance` returns `False`;
`can_open_url` returns a boolean for every valid item index.  `can_advance`,
however, raises on a line with no comma (the counterexample), so the
predicates are not all total. -/
theorem classifier_degrades_to_false :
    (∀ (c : Calendar) (i : Nat) (line : List Char),
      get_source_line c i = some line → get_date_expression line = none →
      happens_only_once c i = some false)
    ∧ (∀ (c : Calendar) (i : Nat) (line date : List Char),
      get_source_line c i = some line → get_date_expression line = some date →
      parse_expression date = none →
      happens_only_once c i = some (is_literal date)
      ∧ can_advance c i = some false)
    ∧ (∀ (c : Calendar) (i : Nat) (item : List Char),
      c.shown_items.get? i = some item →
      can_open_url c i = some (searchUrl item)) := by
  refine ⟨?_, ?_, ?_⟩
  · intro c i line h1 h2
    unfold happens_only_once
    simp only [h1, h2]
  · intro c i line date h1 h2 hparse
    constructor
    · unfold happens_only_once happens_only_once_expr
      simp only [h1, h2]
      by_cases hlit : is_literal date
      · simp [hlit]
      · simp [hlit, hparse, Bool.false_eq_true, eq_comm]
    · unfold can_advance can_advance_expr
      simp only [h1, h2]
      cases hv : variable_to_replace date with
      | none => rfl
      | some v => simp [hparse]
  · intro c i item h
    unfold can_open_url
    simp only [h]

/-- Witness for the amended C6 at concrete documents: a comma-less line, the
unbalanced `"(j>5 , text"` line, and a URL-less item. -/
theorem classifier_degrades_to_false_witness :
    happens_only_once noCommaCal 0 = some false
    ∧ (happens_only_once unbalancedCal 0 = some (is_literal (("(j>5").toList))
       ∧ can_advance unbalancedCal 0 = some false)
    ∧ can_open_url sampleCal 0 = some (searchUrl (("it").toList)) :=
  ⟨classifier_degrades_to_false.1 noCommaCal 0 (("j bla").toList)
      (by decide) (by decide),
   classifier_degrades_to_false.2.1 unbalancedCal 0 (("(j>5 , text").toList)
      (("(j>5").toList) (by decide) (by decide) (by decide),
   classifier_degrades_to_false.2.2 sampleCal 0 (("it").toList) (by decide)⟩

/-! ## The menu rebuild (C7) -/

/-- C7 counterexample: with an empty projected item list the rebuilt menu is
`[New, View-mode, Monthly-calendar]` — the claimed always-present base
action Edit is missing. -/
theorem menu_missing_edit_on_empty :
    recreate_menu ⟨[], [], [], false⟩ 0
      = some [Action.new, Action.view, Action.monthly]
    ∧ Action.edit ∉ [Action.new, Action.view, Action.monthly] := by
  exact ⟨by decide, by decide⟩

/-- C7 (amended): whenever `recreate_menu` completes (no gating predicate
raises), the rebuilt menu always contains New, View-mode and
Monthly-calendar; Edit (and Duplicate) is present exactly when the projected
item list is non-empty; and each conditional action (Delete, Reschedule,
Comment, Advance, Browse-URL) appears only when its gating predicate holds
for the selected item. -/
theorem menu_gating (c : Calendar) (sel : Nat) (ms : List Action)
    (h : recreate_menu c sel = some ms) :
    Action.new ∈ ms ∧ Action.view ∈ ms ∧ Action.monthly ∈ ms
    ∧ (Action.edit ∈ ms ↔ c.shown_items ≠ [])
    ∧ (Action.duplicate ∈ ms ↔ c.shown_items ≠ [])
    ∧ (Action.delete ∈ ms → can_delete c sel = some true)
    ∧ (Action.reschedule ∈ ms → can_reschedule c sel = some true)
    ∧ (Action.comment ∈ ms → can_comment c sel = some true)
    ∧ (Action.advance ∈ ms → can_advance c sel = some true)
    ∧ (Action.browseUrl ∈ ms → can_open_url c sel = some true) := by
  unfold recreate_menu at h
  by_cases hne : c.shown_items ≠ []
  · rw [if_pos hne] at h
    cases hd : can_delete c sel with
    | none => rw [hd] at h; simp at h
    | some d =>
      rw [hd] at h
      cases hr : can_reschedule c sel with
      | none => rw [hr] at h; simp at h
      | some r =>
        rw [hr] at h
        cases hco : can_comment c sel with
        | none => rw [hco] at h; simp at h
        | some co =>
          rw [hco] at h
          cases ha : can_advance c sel with
          | none => rw [ha] at h; simp at h
          | some a =>
            rw [ha] at h
            cases hu : can_open_url c sel with
            | none => rw [hu] at h; simp at h
            | some u =>
              rw [hu] at h
              simp only [Option.some.injEq] at h
              subst h
              cases d <;> cases r <;> cases co <;> cases a <;> cases u <;>
                simp_all
  · rw [if_neg hne] at h
    simp only [Option.some.injEq] at h
    subst h
    push_neg at hne
    simp [hne]

/-- Witness for the amended C7 at `plainCal` (one literal-date entry with no
URL in its rendered text). -/
theorem menu_gating_witness :
    Action.new ∈ plainMenu ∧ Action.view ∈ plainMenu ∧ Action.monthly ∈ plainMenu
    ∧ (Action.edit ∈ plainMenu ↔ plainCal.shown_items ≠ [])
    ∧ (Action.duplicate ∈ plainMenu ↔ plainCal.shown_items ≠ [])
    ∧ (Action.delete ∈ plainMenu → can_delete plainCal 0 = some true)
    ∧ (Action.reschedule ∈ plainMenu → can_reschedule plainCal 0 = some true)
    ∧ (Action.comment ∈ plainMenu → can_comment plainCal 0 = some true)
    ∧ (Action.advance ∈ plainMenu → can_advance plainCal 0 = some true)
    ∧ (Action.browseUrl ∈ plainMenu → can_open_url plainCal 0 = some true) :=
  menu_gating plainCal 0 plainMenu (by decide)

end Someday
